import Mathlib

/-!
Formal model of the Connect 4 implementation in `Main_code.py`.

The board is the 6x7 numpy array `self.__container`; cells hold 0 (empty),
1 (player one) or 2 (player two).  Row 0 is the top row.  The pure game
layer below translates `Connect4.check_move_allowed`, `Connect4.place_coin`
and `Connect4.check_win` directly; the bot layer further down models
`Bot` methods with an explicit object heap, because the Python code mutates
numpy arrays through aliased references.
-/

/-- A board: a list of 6 rows, each a list of 7 cells (0 empty, 1 player one,
2 player two), mirroring the 6x7 numpy array with row 0 on top. -/
abbrev Board := List (List Nat)

/-- Read cell `(r, c)`; out-of-range reads default to 0 (every read performed
by the modelled code is in range on the 6x7 board). -/
def getCell (b : Board) (r c : Nat) : Nat := (b.getD r []).getD c 0

/-- Write cell `(r, c)` (an in-place numpy assignment; `List.set` is a no-op
out of range). -/
def setCell (b : Board) (r c v : Nat) : Board := b.set r ((b.getD r []).set c v)

/-- The board has exactly 6 rows of 7 cells each. -/
def boardWF (b : Board) : Prop := b.length = 6 ∧ ∀ row ∈ b, row.length = 7

/-- numpy index resolution on an axis of length `n`: indices in `[0, n)` are
used directly, indices in `[-n, 0)` silently wrap to `i + n`, and anything
else raises `IndexError` (modelled as `none`). -/
def npIndex (n : Nat) (i : Int) : Option Nat :=
  if 0 ≤ i ∧ i < (n : Int) then some i.toNat
  else if -(n : Int) ≤ i ∧ i < 0 then some (i + n).toNat
  else none

/-- `Connect4.check_move_allowed` (lines 120-126): returns
`self.__container[0, column] == 0`; the numpy indexing step can raise
(modelled as `none`). -/
def check_move_allowed (b : Board) (column : Int) : Option Bool :=
  (npIndex 7 column).map fun j => getCell b 0 j == 0

/-- The row scan of `Connect4.place_coin`:
`for row in reversed(range(6)): if container[row, column] == 0: break`.
Scans rows 5, 4, ..., 0 and stops at the first empty cell; if none is empty
the Python loop variable is left at 0. -/
def landingRowAux (b : Board) (j : Nat) : List Nat → Nat
  | [] => 0
  | r :: rs => if getCell b r j = 0 then r else landingRowAux b j rs

/-- Row in which a coin dropped into column `j` lands (first empty cell from
the bottom). -/
def landingRow (b : Board) (j : Nat) : Nat := landingRowAux b j [5, 4, 3, 2, 1, 0]

/-- `Connect4.place_coin` body for a resolved (in-range) column index `j`:
if the top cell is empty, write `p` into the landing row and succeed
(Python returns `True`); otherwise leave the board alone and fail
(Python returns `None`). -/
def placeN (b : Board) (j p : Nat) : Board × Bool :=
  if getCell b 0 j = 0 then (setCell b (landingRow b j) j p, true) else (b, false)

/-- `Connect4.place_coin` (lines 128-142) with the raw `column` argument: the
numpy index resolution happens first (inside `check_move_allowed`), then the
check-and-place body runs on the resolved column. -/
def place_coin (b : Board) (column : Int) (p : Nat) : Option (Board × Bool) :=
  (npIndex 7 column).map fun j => placeN b j p

/-- The chained comparison `a == b == c == d == player` of the win scans. -/
def chain4 (a b c d p : Nat) : Bool := a == b && b == c && c == d && d == p

/-- Horizontal scan of `check_win`: `for c in range(7-3): for r in range(6)`. -/
def horizWin (b : Board) (p : Nat) : Bool :=
  (List.range 4).any fun c => (List.range 6).any fun r =>
    chain4 (getCell b r c) (getCell b r (c+1)) (getCell b r (c+2)) (getCell b r (c+3)) p

/-- Vertical scan of `check_win`: `for c in range(7): for r in range(6-3)`. -/
def vertWin (b : Board) (p : Nat) : Bool :=
  (List.range 7).any fun c => (List.range 3).any fun r =>
    chain4 (getCell b r c) (getCell b (r+1) c) (getCell b (r+2) c) (getCell b (r+3) c) p

/-- Decreasing-diagonal scan of `check_win`: `for c in range(7-3): for r in range(6-3)`. -/
def diagDownWin (b : Board) (p : Nat) : Bool :=
  (List.range 4).any fun c => (List.range 3).any fun r =>
    chain4 (getCell b r c) (getCell b (r+1) (c+1)) (getCell b (r+2) (c+2)) (getCell b (r+3) (c+3)) p

/-- Increasing-diagonal scan of `check_win`: `for c in range(7-3): for r in range(3, 6)`. -/
def diagUpWin (b : Board) (p : Nat) : Bool :=
  (List.range 4).any fun c => ([3, 4, 5] : List Nat).any fun r =>
    chain4 (getCell b r c) (getCell b (r-1) (c+1)) (getCell b (r-2) (c+2)) (getCell b (r-3) (c+3)) p

/-- Some scan of `check_win` finds a four-in-a-row of `p`. -/
def hasFourB (b : Board) (p : Nat) : Bool :=
  horizWin b p || vertWin b p || diagDownWin b p || diagUpWin b p

/-- The draw test `np.all(self.__container)`: every cell is non-zero. -/
def isFullBoard (b : Board) : Bool :=
  (List.range 6).all fun r => (List.range 7).all fun c => getCell b r c != 0

/-- `Connect4.check_win` (lines 144-174): each directional scan returns
`player` on a hit; afterwards `np.all` reports a draw as 3; otherwise the
function falls through returning Python `None` (modelled as `none`). -/
def check_win (b : Board) (p : Nat) : Option Nat :=
  if horizWin b p then some p
  else if vertWin b p then some p
  else if diagDownWin b p then some p
  else if diagUpWin b p then some p
  else if isFullBoard b then some 3
  else none

/-- A four-in-a-row of player `p` somewhere on the 6x7 grid, in any of the
four orientations (declarative form used to state the claims). -/
def HasRun (b : Board) (p : Nat) : Prop :=
  (∃ r < 6, ∃ c < 4, getCell b r c = p ∧ getCell b r (c+1) = p ∧
      getCell b r (c+2) = p ∧ getCell b r (c+3) = p) ∨
  (∃ r < 3, ∃ c < 7, getCell b r c = p ∧ getCell b (r+1) c = p ∧
      getCell b (r+2) c = p ∧ getCell b (r+3) c = p) ∨
  (∃ r < 3, ∃ c < 4, getCell b r c = p ∧ getCell b (r+1) (c+1) = p ∧
      getCell b (r+2) (c+2) = p ∧ getCell b (r+3) (c+3) = p) ∨
  (∃ r < 6, 3 ≤ r ∧ ∃ c < 4, getCell b r c = p ∧ getCell b (r-1) (c+1) = p ∧
      getCell b (r-2) (c+2) = p ∧ getCell b (r-3) (c+3) = p)

instance (b : Board) (p : Nat) : Decidable (HasRun b p) := by
  unfold HasRun
  infer_instance

instance (b : Board) : Decidable (boardWF b) := by
  unfold boardWF
  infer_instance

/-- The all-zero 6x7 board `np.zeros((6, 7))`. -/
def zeros67 : Board := List.replicate 6 (List.replicate 7 0)

/- ### The bot layer.

`Bot` inherits the whole game class and works on `self._Connect4__container`.
Because the Python code distinguishes rebinding that attribute (to a fresh
`.copy()`) from mutating the underlying numpy array in place — and
`check_mistake` captures the array by reference — the bot is modelled with an
explicit store of array objects. -/

/-- The bot's mutable world: a store of numpy-array objects (`heap`,
addresses are list indices) and the address `cont` currently bound to
`self._Connect4__container`.  `curr_board` is passed to the bot methods as an
address, so reference capture and `.copy()` are distinguished exactly as in
the Python. -/
structure BotSt where
  heap : List Board
  cont : Nat

/-- The current value of `self._Connect4__container`. -/
def curBoard (σ : BotSt) : Board := σ.heap.getD σ.cont []

/-- `Bot.set_current_board` (lines 291-296):
`self._Connect4__container = curr_board.copy()` — allocate a fresh copy of
the object at `src` and rebind `cont` to it. -/
def set_cur (σ : BotSt) (src : Nat) : BotSt :=
  ⟨σ.heap ++ [σ.heap.getD src []], σ.heap.length⟩

/-- `self.place_coin(col, p)` invoked on the bot: run the placement body on
the container object and write the result back in place (an in-place numpy
mutation, visible through every reference to that object). -/
def place_st (σ : BotSt) (col p : Nat) : BotSt × Bool :=
  let pr := placeN (curBoard σ) col p
  (⟨σ.heap.set σ.cont pr.1, σ.cont⟩, pr.2)

/-- The draw loop of `Bot.random_move` (lines 298-308): keep drawing
`np.random.randint(0, 7)` from the random stream until a placement succeeds.
An exhausted stream answers `none` (the Python loop would draw forever). -/
def randLoop : BotSt → List Nat → Option Nat × BotSt × List Nat
  | σ, [] => (none, σ, [])
  | σ, r :: rs =>
    let pr := place_st σ (r % 7) 2
    if pr.2 then (some (r % 7), pr.1, rs) else randLoop pr.1 rs

/-- `Bot.random_move`: `set_current_board(curr_board)` then the draw loop. -/
def random_move_st (σ : BotSt) (curRef : Nat) (rng : List Nat) :
    Option Nat × BotSt × List Nat :=
  randLoop (set_cur σ curRef) rng

/-- The column loop of `Bot.place_4th_coin` (lines 310-323) for one `player`:
place on the container; on a win return the column, otherwise rebind the
container to a fresh copy of `curr_board` and continue (a failed placement
changes nothing and is simply skipped). -/
def p4loop (curRef p : Nat) : BotSt → List Nat → Option Nat × BotSt
  | σ, [] => (none, σ)
  | σ, c :: cs =>
    let pr := place_st σ c p
    if pr.2 then
      if check_win (curBoard pr.1) p == some p then (some c, pr.1)
      else p4loop curRef p (set_cur pr.1 curRef) cs
    else p4loop curRef p pr.1 cs

/-- `Bot.place_4th_coin`: `set_current_board(curr_board)`, then the column
scan for `player` 2 followed by the column scan for `player` 1
(`for player in reversed(range(1, 3))`). -/
def place_4th_coin_st (σ : BotSt) (curRef : Nat) : Option Nat × BotSt :=
  match p4loop curRef 2 (set_cur σ curRef) (List.range 7) with
  | (some c, σ') => (some c, σ')
  | (none, σ') => p4loop curRef 1 σ' (List.range 7)

/-- The column loop of `Bot.check_mistake` (lines 325-338).  `updRef` is the
reference captured by `updated_board = self._Connect4__container`; the reset
`set_current_board(updated_board)` copies that object, which the first
successful simulated placement has already mutated in place. -/
def cmloop (updRef : Nat) : BotSt → List Nat → Bool × BotSt
  | σ, [] => (false, σ)
  | σ, c :: cs =>
    let pr := place_st σ c 1
    if pr.2 then
      if check_win (curBoard pr.1) 1 == some 1 then (true, pr.1)
      else cmloop updRef (set_cur pr.1 updRef) cs
    else cmloop updRef pr.1 cs

/-- `Bot.check_mistake`: copy `curr_board`, place player 2's candidate
`column`, then simulate every player-1 reply; the Python falsy `None` return
is modelled as `false`. -/
def check_mistake_st (σ : BotSt) (column curRef : Nat) : Bool × BotSt :=
  let σ1 := set_cur σ curRef
  let pr := place_st σ1 column 2
  if pr.2 then cmloop (pr.1).cont pr.1 (List.range 7) else (false, pr.1)

/-- The `available_moves` counting loop of the hard branch of `Bot.bot_move`
(lines 358-363): `check_move_allowed` reads the bot's own container (in
whatever state the previous iteration left it), while `check_mistake`
restarts from `curr_board`. -/
def availLoop (curRef : Nat) : BotSt → List Nat → Nat → Nat × BotSt
  | σ, [], acc => (acc, σ)
  | σ, c :: cs, acc =>
    if getCell (curBoard σ) 0 c == 0 then
      let m := check_mistake_st σ c curRef
      availLoop curRef m.2 cs (if m.1 then acc else acc + 1)
    else availLoop curRef σ cs acc

/-- The `while True` retry loop of the hard branch (lines 365-369): draw
random moves until one passes `check_mistake`.  Fuel bounds the iterations;
since every iteration consumes at least one random draw, `rng.length + 1`
exhausts the modelled stream. -/
def hardWhile (curRef : Nat) : Nat → BotSt → List Nat → Option Nat × BotSt
  | 0, σ, _ => (none, σ)
  | fuel + 1, σ, rng =>
    match random_move_st σ curRef rng with
    | (none, σ', _) => (none, σ')
    | (some c, σ', rng') =>
      let m := check_mistake_st σ' c curRef
      if m.1 then hardWhile curRef fuel m.2 rng' else (some c, m.2)

/-- `Bot.bot_move` (lines 340-372), dispatching on `self.bot_difficulty`; an
unknown difficulty string falls through returning Python `None`. -/
def bot_move_st (diff : String) (σ : BotSt) (curRef : Nat) (rng : List Nat) :
    Option Nat × BotSt :=
  if diff == "easy" then
    let r := random_move_st σ curRef rng
    (r.1, r.2.1)
  else if diff == "moderate" then
    match place_4th_coin_st σ curRef with
    | (some c, σ') => (some c, σ')
    | (none, σ') =>
      let r := random_move_st σ' curRef rng
      (r.1, r.2.1)
  else if diff == "hard" then
    match place_4th_coin_st σ curRef with
    | (some c, σ') => (some c, σ')
    | (none, σ') =>
      let av := availLoop curRef σ' (List.range 7) 0
      if 0 < av.1 then hardWhile curRef (rng.length + 1) av.2 rng
      else
        let r := random_move_st av.2 curRef rng
        (r.1, r.2.1)
  else (none, σ)

/-- The world of a freshly constructed `Bot` asked about `curr_board`:
address 0 holds the caller's array, address 1 the bot's own
`np.zeros((6, 7))` container built by `Connect4.__init__`. -/
def initSt (B : Board) : BotSt := ⟨[B, zeros67], 1⟩

/-- `Bot(d).place_4th_coin(curr_board)` as a function of the board value. -/
def run_place_4th (B : Board) : Option Nat := (place_4th_coin_st (initSt B) 0).1

/-- `Bot(d).check_mistake(column, curr_board)` as a function of the board value. -/
def run_check_mistake (B : Board) (column : Nat) : Bool :=
  (check_mistake_st (initSt B) column 0).1

/-- Modelled from the spec (section 4.3, Hard tier; the code's
`check_mistake` is the corresponding source): a candidate `column` is unsafe
iff placing the acting player's coin there succeeds and some playable
opponent column on the resulting snapshot wins for the opponent, every
opponent reply being simulated on the position right after the candidate
placement only. -/
def cmSpec (B : Board) (column : Nat) : Bool :=
  let a0 := placeN B column 2
  a0.2 && ((List.range 7).any fun k =>
    (placeN a0.1 k 1).2 && hasFourB (placeN a0.1 k 1).1 1)

/- ### The session layer (`Connect4.event_handler` and `__init__`) -/

/-- The mutable session state read and written by `Connect4.event_handler`. -/
structure GameState where
  board : Board
  turn : Nat
  game_over : Bool

/-- The tail of the `MOUSEBUTTONDOWN` branch (lines 222-239): two-player mode
flips the turn; single-player mode, when the game is not over, builds a fresh
`Bot`, asks it for a column and plays it as player 2.  A `none` answer from
the bot (exhausted modelled random stream) leaves the state as it is — the
Python would simply draw more random numbers. -/
def afterMove (np : Nat) (diff : String) (rng : List Nat) (gs : GameState) : GameState :=
  if np == 2 then ⟨gs.board, (gs.turn + 1) % 2, gs.game_over⟩
  else if gs.game_over then gs
  else
    match (bot_move_st diff (initSt gs.board) 0 rng).1 with
    | none => gs
    | some c =>
      let pr := placeN gs.board c 2
      if pr.2 then
        ⟨pr.1, gs.turn,
          gs.game_over || (check_win pr.1 2 == some 2) || (check_win pr.1 1 == some 3)⟩
      else gs

/-- One `MOUSEBUTTONDOWN` event of `Connect4.event_handler` (lines 189-239)
for a click resolving to column `col`: the current player's coin is placed;
on success the mover's win and then the draw are checked (the draw through
`check_win(1)` in both branches, as in the source) and `game_over` is raised
accordingly; on failure the handler breaks out of the event, changing
nothing. -/
def handle_click (np : Nat) (diff : String) (rng : List Nat) (gs : GameState)
    (col : Nat) : GameState :=
  if gs.turn == 0 then
    let pr := placeN gs.board col 1
    if pr.2 then
      afterMove np diff rng
        ⟨pr.1, gs.turn,
          gs.game_over || (check_win pr.1 1 == some 1) || (check_win pr.1 1 == some 3)⟩
    else gs
  else
    let pr := placeN gs.board col 2
    if pr.2 then
      afterMove np diff rng
        ⟨pr.1, gs.turn,
          gs.game_over || (check_win pr.1 2 == some 2) || (check_win pr.1 1 == some 3)⟩
    else gs

/-- The session-configuration fields stored by `Connect4.__init__` (the
pygame surface and font are presentation state). -/
structure SessionConfig where
  num_players : Nat
  bot_difficulty : Option String
  turn : Nat
  game_over : Bool

/-- `Connect4.__init__` (lines 79-95): stores its arguments and the starting
state.  It has no failure path at all, so as fallible code it is the
always-successful `Except`. -/
def Connect4_init (num_players : Nat) (bot_difficulty : Option String) :
    Except String SessionConfig :=
  .ok ⟨num_players, bot_difficulty, 0, false⟩

/-- The `__main__` argument validation (lines 382-384): `parser.error` fires,
aborting the process, exactly when one player is requested and no difficulty
is given. -/
def main_arg_check (num_players : Nat) (bot_difficulty : Option String) : Bool :=
  !(num_players == 1 && bot_difficulty.isNone)

/-- Pure description of one `place_4th_coin` scan iteration: the simulated
placement of `player` `p` into column `c` of `B` succeeds and produces a win
for `p`. -/
def p4cond (B : Board) (p c : Nat) : Bool :=
  (placeN B c p).2 && (check_win (placeN B c p).1 p == some p)

/-- Pure form of the `place_4th_coin` column scan, proved below to coincide
with the stateful `p4loop`: the first column in `cols` whose simulated
placement wins. -/
def pureScan (B : Board) (p : Nat) : List Nat → Option Nat
  | [] => none
  | c :: cs => if p4cond B p c then some c else pureScan B p cs

/-- Bookkeeping invariant for the bot world: the caller's array address
`curRef` and the container address are valid, and the container is a
different object from the caller's array. -/
def SepInv (σ : BotSt) (curRef : Nat) : Prop :=
  curRef < σ.heap.length ∧ σ.cont < σ.heap.length ∧ σ.cont ≠ curRef

/- ### Concrete boards used as witnesses and counterexamples -/

/-- Player 1 owns (5,1) and (5,2); everything else is empty.  Placing the
bot's coin at column 6 opens no single winning reply for player 1, yet
`check_mistake` leaks the first simulated reply (column 0) into the later
ones and cries mistake. -/
def cmBugBoard : Board :=
  [[0,0,0,0,0,0,0],[0,0,0,0,0,0,0],[0,0,0,0,0,0,0],
   [0,0,0,0,0,0,0],[0,0,0,0,0,0,0],[0,1,1,0,0,0,0]]

/-- Player 2 has three in a row vertically in column 0. -/
def vert2Board : Board :=
  [[0,0,0,0,0,0,0],[0,0,0,0,0,0,0],[0,0,0,0,0,0,0],
   [2,0,0,0,0,0,0],[2,0,0,0,0,0,0],[2,0,0,0,0,0,0]]

/-- Player 1 has four in a row vertically in column 0. -/
def vert1Board : Board :=
  [[0,0,0,0,0,0,0],[0,0,0,0,0,0,0],[1,0,0,0,0,0,0],
   [1,0,0,0,0,0,0],[1,0,0,0,0,0,0],[1,0,0,0,0,0,0]]

/-- A full board with no four-in-a-row for either player. -/
def drawBoard : Board :=
  [[1,2,1,2,1,2,1],[1,2,1,2,1,2,1],[2,1,2,1,2,1,2],
   [2,1,2,1,2,1,2],[1,2,1,2,1,2,1],[1,2,1,2,1,2,1]]

/-- The full board owned entirely by player 1. -/
def onesBoard : Board := List.replicate 6 (List.replicate 7 1)

/-- Column 0 is full; the rest of the board is empty. -/
def fullColBoard : Board :=
  [[1,0,0,0,0,0,0],[2,0,0,0,0,0,0],[1,0,0,0,0,0,0],
   [2,0,0,0,0,0,0],[1,0,0,0,0,0,0],[2,0,0,0,0,0,0]]

/-- Column 2 holds exactly two coins, in the two bottom rows. -/
def gravBoard : Board :=
  [[0,0,0,0,0,0,0],[0,0,0,0,0,0,0],[0,0,0,0,0,0,0],
   [0,0,0,0,0,0,0],[0,0,1,0,0,0,0],[0,0,2,0,0,0,0]]

/- ### List helper lemmas -/

theorem getD_set_ne {α : Type} (l : List α) (a d : α) {i j : Nat} (h : i ≠ j) :
    (l.set i a).getD j d = l.getD j d := by
  induction l generalizing i j with
  | nil => simp
  | cons x xs ih =>
    cases i with
    | zero => cases j with
      | zero => exact absurd rfl h
      | succ j => simp [List.set, List.getD]
    | succ i => cases j with
      | zero => simp [List.set, List.getD]
      | succ j =>
        simp only [List.set, List.getD_cons_succ]
        exact ih (fun hh => h (by omega))

theorem getD_set_self {α : Type} (l : List α) (a d : α) {i : Nat} (h : i < l.length) :
    (l.set i a).getD i d = a := by
  induction l generalizing i with
  | nil => simp at h
  | cons x xs ih =>
    cases i with
    | zero => simp [List.set]
    | succ i =>
      simp only [List.set, List.getD_cons_succ]
      exact ih (by simpa using h)

theorem getD_concat_length {α : Type} (l : List α) (x d : α) :
    (l ++ [x]).getD l.length d = x := by
  induction l with
  | nil => simp
  | cons y ys ih => simp [ih]

theorem set_oob {α : Type} (l : List α) (a : α) {i : Nat} (h : l.length ≤ i) :
    l.set i a = l := by
  induction l generalizing i with
  | nil => simp
  | cons x xs ih =>
    cases i with
    | zero => simp at h
    | succ i => simp [List.set, ih (by simpa using h)]

/- ### Cell-level lemmas about setCell / getCell -/

theorem getCell_setCell_ne (b : Board) (r₀ c₀ v : Nat) {r c : Nat}
    (h : ¬(r = r₀ ∧ c = c₀)) : getCell (setCell b r₀ c₀ v) r c = getCell b r c := by
  unfold getCell setCell
  by_cases hr : r = r₀
  · subst hr
    have hc : c₀ ≠ c := fun hc => h ⟨rfl, hc.symm⟩
    by_cases hlen : r < b.length
    · rw [getD_set_self _ _ _ hlen, getD_set_ne _ _ _ hc]
    · rw [set_oob _ _ (Nat.le_of_not_lt hlen)]
  · rw [getD_set_ne _ _ _ (fun hh => hr hh.symm)]

theorem getCell_setCell_self (b : Board) {r c : Nat} (v : Nat)
    (hr : r < b.length) (hc : c < (b.getD r []).length) :
    getCell (setCell b r c v) r c = v := by
  unfold getCell setCell
  rw [getD_set_self _ _ _ hr, getD_set_self _ _ _ hc]

theorem boardWF_setCell {b : Board} (hwf : boardWF b) (r c v : Nat) :
    boardWF (setCell b r c v) := by
  obtain ⟨hlen, hrow⟩ := hwf
  by_cases hr : r < b.length
  · constructor
    · simpa [setCell] using hlen
    · intro row hmem
      rcases List.mem_or_eq_of_mem_set hmem with h | h
      · exact hrow _ h
      · subst h
        rw [List.length_set, List.getD_eq_getElem _ _ hr]
        exact hrow _ (List.getElem_mem hr)
  · unfold setCell
    rw [set_oob _ _ (Nat.le_of_not_lt hr)]
    exact ⟨hlen, hrow⟩

/- ### Win detection: the scans coincide with the declarative runs -/

theorem chain4_eq_true {a b c d p : Nat} :
    chain4 a b c d p = true ↔ (a = b ∧ b = c ∧ c = d ∧ d = p) := by
  unfold chain4
  simp [Bool.and_eq_true, and_assoc]

theorem horiz_iff (b : Board) (p : Nat) :
    horizWin b p = true ↔
      ∃ r < 6, ∃ c < 4, getCell b r c = p ∧ getCell b r (c+1) = p ∧
        getCell b r (c+2) = p ∧ getCell b r (c+3) = p := by
  unfold horizWin
  simp only [List.any_eq_true, List.mem_range, chain4_eq_true]
  constructor
  · rintro ⟨c, hc, r, hr, h1, h2, h3, h4⟩
    exact ⟨r, hr, c, hc, by omega, by omega, by omega, h4⟩
  · rintro ⟨r, hr, c, hc, h1, h2, h3, h4⟩
    exact ⟨c, hc, r, hr, by omega, by omega, by omega, h4⟩

theorem vert_iff (b : Board) (p : Nat) :
    vertWin b p = true ↔
      ∃ r < 3, ∃ c < 7, getCell b r c = p ∧ getCell b (r+1) c = p ∧
        getCell b (r+2) c = p ∧ getCell b (r+3) c = p := by
  unfold vertWin
  simp only [List.any_eq_true, List.mem_range, chain4_eq_true]
  constructor
  · rintro ⟨c, hc, r, hr, h1, h2, h3, h4⟩
    exact ⟨r, hr, c, hc, by omega, by omega, by omega, h4⟩
  · rintro ⟨r, hr, c, hc, h1, h2, h3, h4⟩
    exact ⟨c, hc, r, hr, by omega, by omega, by omega, h4⟩

theorem diagDown_iff (b : Board) (p : Nat) :
    diagDownWin b p = true ↔
      ∃ r < 3, ∃ c < 4, getCell b r c = p ∧ getCell b (r+1) (c+1) = p ∧
        getCell b (r+2) (c+2) = p ∧ getCell b (r+3) (c+3) = p := by
  unfold diagDownWin
  simp only [List.any_eq_true, List.mem_range, chain4_eq_true]
  constructor
  · rintro ⟨c, hc, r, hr, h1, h2, h3, h4⟩
    exact ⟨r, hr, c, hc, by omega, by omega, by omega, h4⟩
  · rintro ⟨r, hr, c, hc, h1, h2, h3, h4⟩
    exact ⟨c, hc, r, hr, by omega, by omega, by omega, h4⟩

theorem diagUp_iff (b : Board) (p : Nat) :
    diagUpWin b p = true ↔
      ∃ r < 6, 3 ≤ r ∧ ∃ c < 4, getCell b r c = p ∧ getCell b (r-1) (c+1) = p ∧
        getCell b (r-2) (c+2) = p ∧ getCell b (r-3) (c+3) = p := by
  unfold diagUpWin
  simp only [List.any_eq_true, List.mem_range, List.mem_cons, List.not_mem_nil,
    or_false, chain4_eq_true]
  constructor
  · rintro ⟨c, hc, r, hr, h1, h2, h3, h4⟩
    have hr' : 3 ≤ r ∧ r < 6 := by rcases hr with h | h | h <;> omega
    exact ⟨r, hr'.2, hr'.1, c, hc, by omega, by omega, by omega, h4⟩
  · rintro ⟨r, hr6, hr3, c, hc, h1, h2, h3, h4⟩
    have hr : r = 3 ∨ r = 4 ∨ r = 5 := by omega
    exact ⟨c, hc, r, hr, by omega, by omega, by omega, h4⟩

theorem hasFour_iff (b : Board) (p : Nat) : hasFourB b p = true ↔ HasRun b p := by
  unfold hasFourB HasRun
  rw [Bool.or_eq_true, Bool.or_eq_true, Bool.or_eq_true,
    horiz_iff, vert_iff, diagDown_iff, diagUp_iff]
  simp [or_assoc]

theorem check_win_of_hasFour {b : Board} {p : Nat} (h : hasFourB b p = true) :
    check_win b p = some p := by
  unfold hasFourB at h
  unfold check_win
  cases h1 : horizWin b p <;> cases h2 : vertWin b p <;>
    cases h3 : diagDownWin b p <;> cases h4 : diagUpWin b p <;> simp_all

theorem check_win_eq_some_self {b : Board} {p : Nat} (hp : p ≠ 3) :
    check_win b p = some p ↔ hasFourB b p = true := by
  constructor
  · intro h
    unfold check_win at h
    unfold hasFourB
    cases h1 : horizWin b p <;> cases h2 : vertWin b p <;>
      cases h3 : diagDownWin b p <;> cases h4 : diagUpWin b p <;>
      cases h5 : isFullBoard b <;> simp_all
  · exact check_win_of_hasFour

theorem check_win_beq_self (b : Board) {p : Nat} (hp : p ≠ 3) :
    (check_win b p == some p) = hasFourB b p := by
  cases h : hasFourB b p with
  | true => simp [check_win_of_hasFour h]
  | false =>
    have hne : check_win b p ≠ some p := fun hc => by
      have hf := (check_win_eq_some_self hp).mp hc
      rw [h] at hf
      cases hf
    simpa using hne

/- ### Placement under the gravity invariant (claim C4) -/

theorem row_length {B : Board} (hwf : boardWF B) {r : Nat} (hr : r < 6) :
    (B.getD r []).length = 7 := by
  have hrl : r < B.length := by rw [hwf.1]; omega
  rw [List.getD_eq_getElem _ _ hrl]
  exact hwf.2 _ (List.getElem_mem hrl)

theorem landing_gravity (B : Board) (j k : Nat) (hk : k < 6)
    (hcol : ∀ r, r < 6 → (getCell B r j = 0 ↔ r < 6 - k)) :
    landingRow B j = 5 - k := by
  interval_cases k <;>
    simp [landingRow, landingRowAux, hcol 5 (by omega), hcol 4 (by omega),
      hcol 3 (by omega), hcol 2 (by omega), hcol 1 (by omega), hcol 0 (by omega)]

/-- Claim C4: on a board whose column `j` respects gravity and holds exactly
`k` coins, a placement into `j` succeeds, lands in row `5 - k` (0-indexed
from the top), writes into a previously empty cell, and changes no other
cell. -/
theorem C4_place_lands_at_bottom (B : Board) (j k p : Nat) (hwf : boardWF B)
    (hj : j < 7) (hk : k < 6)
    (hcol : ∀ r, r < 6 → (getCell B r j = 0 ↔ r < 6 - k)) :
    placeN B j p = (setCell B (5 - k) j p, true) ∧
    getCell B (5 - k) j = 0 ∧
    getCell (placeN B j p).1 (5 - k) j = p ∧
    (∀ r c, ¬(r = 5 - k ∧ c = j) → getCell (placeN B j p).1 r c = getCell B r c) := by
  have htop : getCell B 0 j = 0 := (hcol 0 (by omega)).mpr (by omega)
  have hland := landing_gravity B j k hk hcol
  have hplace : placeN B j p = (setCell B (5 - k) j p, true) := by
    simp [placeN, htop, hland]
  have hempty : getCell B (5 - k) j = 0 := (hcol (5 - k) (by omega)).mpr (by omega)
  refine ⟨hplace, hempty, ?_, ?_⟩
  · rw [hplace]
    exact getCell_setCell_self B p (by rw [hwf.1]; omega)
      (by rw [row_length hwf (by omega : 5 - k < 6)]; omega)
  · intro r c hne
    rw [hplace]
    exact getCell_setCell_ne B (5 - k) j p hne

/-- Witness for C4 at a concrete board: column 2 of `gravBoard` holds two
coins, so a placement lands in row 3, which was empty. -/
theorem C4_witness :
    getCell gravBoard 3 2 = 0 ∧ getCell (placeN gravBoard 2 1).1 3 2 = 1 := by
  have h := C4_place_lands_at_bottom gravBoard 2 2 1 (by decide) (by omega) (by omega)
    (by decide)
  exact ⟨h.2.1, h.2.2.1⟩

/- ### Rejected placements (claim C5) -/

/-- Claim C5: placing into a column whose top cell is occupied fails (Python
`None`, the `ColumnFull` case) and leaves the board unchanged, both for
player 1 and player 2, and the failed click leaves the whole session state —
board, turn and game-over flag — exactly as it was. -/
theorem C5_full_column_rejected (gs : GameState) (np : Nat) (diff : String)
    (rng : List Nat) (col : Nat) (hcol : col < 7)
    (hfull : getCell gs.board 0 col ≠ 0) :
    place_coin gs.board (col : Int) 1 = some (gs.board, false) ∧
    place_coin gs.board (col : Int) 2 = some (gs.board, false) ∧
    handle_click np diff rng gs col = gs := by
  have hn : npIndex 7 (col : Int) = some col := by
    unfold npIndex
    rw [if_pos ⟨by omega, by exact_mod_cast hcol⟩]
    simp
  have hplace : ∀ p, placeN gs.board col p = (gs.board, false) := fun p => by
    simp [placeN, hfull]
  refine ⟨?_, ?_, ?_⟩
  · simp [place_coin, hn, hplace]
  · simp [place_coin, hn, hplace]
  · simp [handle_click, hplace]

/-- Witness for C5: a click on the full column 0 of `fullColBoard` changes
nothing. -/
theorem C5_witness :
    place_coin fullColBoard 0 1 = some (fullColBoard, false) ∧
    handle_click 2 "easy" [] ⟨fullColBoard, 0, false⟩ 0 = ⟨fullColBoard, 0, false⟩ := by
  have h := C5_full_column_rejected ⟨fullColBoard, 0, false⟩ 2 "easy" [] 0
    (by omega) (by decide)
  exact ⟨h.1, h.2.2⟩

/- ### Column-index validation (claims C6 and C10) -/

/-- Counterexample to claim C6: the out-of-range column -1 is not rejected;
`check_move_allowed` silently answers (about column 6). -/
theorem C6_counterexample :
    check_move_allowed zeros67 (-1) = some true ∧ ((-1 : Int) < 0) := by
  constructor
  · decide
  · decide

/-- Claim C6 as amended: `check_move_allowed` answers whether the top cell of
the addressed column is empty for every numpy-valid index — columns `0..6`
directly and negative columns `-7..-1` silently wrapped to `c + 7` — and
fails (with numpy's `IndexError`, not a dedicated error value) only for
indices below -7 or at least 7. -/
theorem C6_amended (b : Board) (c : Int) :
    (0 ≤ c → c < 7 → check_move_allowed b c = some (getCell b 0 c.toNat == 0)) ∧
    (-7 ≤ c → c < 0 → check_move_allowed b c = some (getCell b 0 (c + 7).toNat == 0)) ∧
    ((c < -7 ∨ 7 ≤ c) → check_move_allowed b c = none) := by
  refine ⟨fun h1 h2 => ?_, fun h1 h2 => ?_, fun h => ?_⟩ <;> unfold check_move_allowed npIndex
  · rw [if_pos ⟨h1, h2⟩]
    rfl
  · rw [if_neg (by omega), if_pos ⟨by omega, h2⟩]
    rfl
  · rw [if_neg (by omega), if_neg (by omega)]
    rfl

/-- Witness for the amended C6: column -2 is answered (as column 5), column 9
raises. -/
theorem C6_witness :
    check_move_allowed zeros67 (-2) = some true ∧ check_move_allowed zeros67 9 = none := by
  constructor
  · rw [(C6_amended zeros67 (-2)).2.1 (by omega) (by omega)]
    decide
  · exact (C6_amended zeros67 9).2.2 (Or.inr (by omega))

/-- Claim C10: a negative column `c` with `-7 ≤ c ≤ -1` is silently accepted:
`check_move_allowed` answers the playability of column `c + 7` and
`place_coin` places into column `c + 7`, exactly as the corresponding calls
with the non-negative index. -/
theorem C10_negative_wraps (b : Board) (p : Nat) (c : Int)
    (h1 : -7 ≤ c) (h2 : c ≤ -1) :
    check_move_allowed b c = some (getCell b 0 (c + 7).toNat == 0) ∧
    place_coin b c p = some (placeN b (c + 7).toNat p) ∧
    check_move_allowed b c = check_move_allowed b (c + 7) ∧
    place_coin b c p = place_coin b (c + 7) p := by
  have hn : npIndex 7 c = some (c + 7).toNat := by
    unfold npIndex
    rw [if_neg (by omega), if_pos ⟨by omega, by omega⟩]
    norm_num
  have hn' : npIndex 7 (c + 7) = some (c + 7).toNat := by
    unfold npIndex
    rw [if_pos ⟨by omega, by omega⟩]
  refine ⟨?_, ?_, ?_, ?_⟩ <;> simp [check_move_allowed, place_coin, hn, hn']

/-- Witness for C10: column -7 behaves exactly as column 0 (here a full
column, so the move is refused but answered, not rejected as out of range). -/
theorem C10_witness :
    check_move_allowed fullColBoard (-7) = some false ∧
    place_coin fullColBoard (-7) 1 = some (fullColBoard, false) := by
  have h := C10_negative_wraps fullColBoard 1 (-7) (by omega) (by omega)
  constructor
  · rw [h.1]
    decide
  · rw [h.2.1]
    decide

/- ### Win and draw reporting (claims C7 and C8) -/

theorem check_win_eq (b : Board) (p : Nat) :
    check_win b p =
      if hasFourB b p then some p else if isFullBoard b then some 3 else none := by
  unfold check_win hasFourB
  cases horizWin b p <;> cases vertWin b p <;> cases diagDownWin b p <;>
    cases diagUpWin b p <;> simp

/-- Claim C7: whenever the board contains a four-in-a-row of player `p` in
any orientation anywhere on the grid, `check_win p` reports the win,
returning `p`. -/
theorem C7_check_win_finds_every_run (b : Board) (p : Nat) (h : HasRun b p) :
    check_win b p = some p :=
  check_win_of_hasFour ((hasFour_iff b p).mpr h)

/-- Witness for C7: the vertical run of player 1 in `vert1Board` is found. -/
theorem C7_witness : check_win vert1Board 1 = some 1 :=
  C7_check_win_finds_every_run vert1Board 1 (by decide)

/-- Claim C8: for `p` in {1, 2}, `check_win p` returns the draw value 3
exactly when the board is full and `p` has no four-in-a-row; on any board on
which `p` does have a four-in-a-row — full or not — it returns `p` instead,
the win check preceding the draw check. -/
theorem C8_draw_iff_full_no_win (b : Board) (p : Nat) (hp : p = 1 ∨ p = 2) :
    (check_win b p = some 3 ↔ (isFullBoard b = true ∧ hasFourB b p = false)) ∧
    (hasFourB b p = true → check_win b p = some p) := by
  have hp3 : p ≠ 3 := by rcases hp with rfl | rfl <;> omega
  constructor
  · rw [check_win_eq]
    cases hf : hasFourB b p
    · cases full : isFullBoard b <;> simp
    · simp [hp3]
  · intro h
    exact check_win_of_hasFour h

/-- Witness for C8: the full no-run board draws; the full all-ones board is a
win for player 1, not a draw. -/
theorem C8_witness : check_win drawBoard 1 = some 3 ∧ check_win onesBoard 1 = some 1 := by
  constructor
  · exact (C8_draw_iff_full_no_win drawBoard 1 (Or.inl rfl)).1.mpr ⟨by decide, by decide⟩
  · exact (C8_draw_iff_full_no_win onesBoard 1 (Or.inl rfl)).2 (by decide)

/- ### Session construction (claim C9) -/

/-- Counterexample to claim C9: constructing a single-player session with no
difficulty succeeds — `Connect4.__init__` raises no `ConfigError` and the
session object is created. -/
theorem C9_counterexample :
    Connect4_init 1 none = .ok ⟨1, none, 0, false⟩ ∧
    ∀ e, Connect4_init 1 none ≠ .error e := by
  refine ⟨rfl, fun e h => ?_⟩
  simp [Connect4_init] at h

/-- Claim C9 as amended: the difficulty requirement for single-player mode is
enforced only by the command-line argument check (`parser.error`), while the
core constructor itself validates nothing and succeeds on every input. -/
theorem C9_amended :
    main_arg_check 1 none = false ∧
    ∀ np d, Connect4_init np d = .ok ⟨np, d, 0, false⟩ :=
  ⟨rfl, fun _ _ => rfl⟩

/- ### The check_mistake aliasing bug (claim C2) -/

/-- Claim C2 evaluated at the failing input: on `cmBugBoard` with candidate
column 6, no single player-1 reply on the position after the bot's placement
wins (the spec's unsafe test, `cmSpec`, is false), yet `check_mistake`
returns true — the player-1 coin its first simulation dropped into column 0
is still on the board when the reply in column 3 is simulated, and together
they complete row 5. -/
theorem C2_code_bug_eval :
    run_check_mistake cmBugBoard 6 = true ∧ cmSpec cmBugBoard 6 = false := by
  constructor
  · decide
  · decide

/- ### Heap preservation: the bot never touches the caller's array (claim C3) -/

theorem sep_set_cur {σ : BotSt} {curRef : Nat} (h : SepInv σ curRef) (src : Nat) :
    SepInv (set_cur σ src) curRef ∧
    (set_cur σ src).heap.getD curRef [] = σ.heap.getD curRef [] := by
  obtain ⟨h1, h2, h3⟩ := h
  refine ⟨⟨?_, ?_, ?_⟩, ?_⟩
  · simp only [set_cur, List.length_append, List.length_singleton]
    omega
  · simp only [set_cur, List.length_append, List.length_singleton]
    omega
  · simp only [set_cur]
    omega
  · exact List.getD_append _ _ _ _ h1

theorem sep_place_st {σ : BotSt} {curRef : Nat} (h : SepInv σ curRef) (col p : Nat) :
    SepInv (place_st σ col p).1 curRef ∧
    (place_st σ col p).1.heap.getD curRef [] = σ.heap.getD curRef [] := by
  obtain ⟨h1, h2, h3⟩ := h
  refine ⟨⟨?_, ?_, h3⟩, ?_⟩
  · simp only [place_st, List.length_set]
    exact h1
  · simp only [place_st, List.length_set]
    exact h2
  · simp only [place_st]
    exact getD_set_ne _ _ _ h3

theorem sep_randLoop (curRef : Nat) (rng : List Nat) :
    ∀ σ : BotSt, SepInv σ curRef →
      SepInv (randLoop σ rng).2.1 curRef ∧
      (randLoop σ rng).2.1.heap.getD curRef [] = σ.heap.getD curRef [] := by
  induction rng with
  | nil => exact fun σ h => ⟨h, rfl⟩
  | cons r rs ih =>
    intro σ h
    have hp := sep_place_st h (r % 7) 2
    by_cases hok : (place_st σ (r % 7) 2).2 = true
    · simp only [randLoop, hok, if_true]
      exact hp
    · simp only [randLoop, hok, if_false, Bool.false_eq_true]
      have hi := ih (place_st σ (r % 7) 2).1 hp.1
      exact ⟨hi.1, hi.2.trans hp.2⟩

theorem sep_random_move {σ : BotSt} {curRef : Nat} (h : SepInv σ curRef) (rng : List Nat) :
    SepInv (random_move_st σ curRef rng).2.1 curRef ∧
    (random_move_st σ curRef rng).2.1.heap.getD curRef [] = σ.heap.getD curRef [] := by
  unfold random_move_st
  have h1 := sep_set_cur h curRef
  have h2 := sep_randLoop curRef rng (set_cur σ curRef) h1.1
  exact ⟨h2.1, h2.2.trans h1.2⟩

theorem sep_p4loop (curRef p : Nat) (cols : List Nat) :
    ∀ σ : BotSt, SepInv σ curRef →
      SepInv (p4loop curRef p σ cols).2 curRef ∧
      (p4loop curRef p σ cols).2.heap.getD curRef [] = σ.heap.getD curRef [] := by
  induction cols with
  | nil => exact fun σ h => ⟨h, rfl⟩
  | cons c cs ih =>
    intro σ h
    have hp := sep_place_st h c p
    by_cases hok : (place_st σ c p).2 = true
    · by_cases hwin : (check_win (curBoard (place_st σ c p).1) p == some p) = true
      · simp only [p4loop, hok, hwin, if_true]
        exact hp
      · simp only [p4loop, hok, hwin, if_true, if_false, Bool.false_eq_true]
        have hs := sep_set_cur hp.1 curRef
        have hi := ih (set_cur (place_st σ c p).1 curRef) hs.1
        exact ⟨hi.1, (hi.2.trans hs.2).trans hp.2⟩
    · simp only [p4loop, hok, if_false, Bool.false_eq_true]
      have hi := ih (place_st σ c p).1 hp.1
      exact ⟨hi.1, hi.2.trans hp.2⟩

theorem sep_place_4th {σ : BotSt} {curRef : Nat} (h : SepInv σ curRef) :
    SepInv (place_4th_coin_st σ curRef).2 curRef ∧
    (place_4th_coin_st σ curRef).2.heap.getD curRef [] = σ.heap.getD curRef [] := by
  unfold place_4th_coin_st
  have h1 := sep_set_cur h curRef
  have h2 := sep_p4loop curRef 2 (List.range 7) (set_cur σ curRef) h1.1
  rcases hm : p4loop curRef 2 (set_cur σ curRef) (List.range 7) with ⟨res, σ'⟩
  rw [hm] at h2
  cases res with
  | some c =>
    simp only
    exact ⟨h2.1, h2.2.trans h1.2⟩
  | none =>
    simp only
    have h3 := sep_p4loop curRef 1 (List.range 7) σ' h2.1
    exact ⟨h3.1, (h3.2.trans h2.2).trans h1.2⟩

theorem sep_cmloop (curRef updRef : Nat) (cols : List Nat) :
    ∀ σ : BotSt, SepInv σ curRef →
      SepInv (cmloop updRef σ cols).2 curRef ∧
      (cmloop updRef σ cols).2.heap.getD curRef [] = σ.heap.getD curRef [] := by
  induction cols with
  | nil => exact fun σ h => ⟨h, rfl⟩
  | cons c cs ih =>
    intro σ h
    have hp := sep_place_st h c 1
    by_cases hok : (place_st σ c 1).2 = true
    · by_cases hwin : (check_win (curBoard (place_st σ c 1).1) 1 == some 1) = true
      · simp only [cmloop, hok, hwin, if_true]
        exact hp
      · simp only [cmloop, hok, hwin, if_true, if_false, Bool.false_eq_true]
        have hs := sep_set_cur hp.1 updRef
        have hi := ih (set_cur (place_st σ c 1).1 updRef) hs.1
        exact ⟨hi.1, (hi.2.trans hs.2).trans hp.2⟩
    · simp only [cmloop, hok, if_false, Bool.false_eq_true]
      have hi := ih (place_st σ c 1).1 hp.1
      exact ⟨hi.1, hi.2.trans hp.2⟩

theorem sep_check_mistake {σ : BotSt} {curRef : Nat} (h : SepInv σ curRef) (column : Nat) :
    SepInv (check_mistake_st σ column curRef).2 curRef ∧
    (check_mistake_st σ column curRef).2.heap.getD curRef [] = σ.heap.getD curRef [] := by
  unfold check_mistake_st
  have h1 := sep_set_cur h curRef
  have h2 := sep_place_st h1.1 column 2
  by_cases hok : (place_st (set_cur σ curRef) column 2).2 = true
  · simp only [hok, if_true]
    have h3 := sep_cmloop curRef (place_st (set_cur σ curRef) column 2).1.cont
      (List.range 7) (place_st (set_cur σ curRef) column 2).1 h2.1
    exact ⟨h3.1, (h3.2.trans h2.2).trans h1.2⟩
  · simp only [hok, if_false, Bool.false_eq_true]
    exact ⟨h2.1, h2.2.trans h1.2⟩

theorem sep_availLoop (curRef : Nat) (cols : List Nat) :
    ∀ (σ : BotSt) (acc : Nat), SepInv σ curRef →
      SepInv (availLoop curRef σ cols acc).2 curRef ∧
      (availLoop curRef σ cols acc).2.heap.getD curRef [] = σ.heap.getD curRef [] := by
  induction cols with
  | nil => exact fun σ acc h => ⟨h, rfl⟩
  | cons c cs ih =>
    intro σ acc h
    by_cases hc : (getCell (curBoard σ) 0 c == 0) = true
    · simp only [availLoop, hc, if_true]
      have hm := sep_check_mistake h c
      have hi := ih (check_mistake_st σ c curRef).2
        (if (check_mistake_st σ c curRef).1 = true then acc else acc + 1) hm.1
      exact ⟨hi.1, hi.2.trans hm.2⟩
    · simp only [availLoop, hc, if_false, Bool.false_eq_true]
      exact ih σ acc h

theorem sep_hardWhile (curRef : Nat) (fuel : Nat) :
    ∀ (σ : BotSt) (rng : List Nat), SepInv σ curRef →
      SepInv (hardWhile curRef fuel σ rng).2 curRef ∧
      (hardWhile curRef fuel σ rng).2.heap.getD curRef [] = σ.heap.getD curRef [] := by
  induction fuel with
  | zero => exact fun σ rng h => ⟨h, rfl⟩
  | succ n ih =>
    intro σ rng h
    have hr := sep_random_move h rng
    rcases hm : random_move_st σ curRef rng with ⟨res, σ', rng'⟩
    rw [hm] at hr
    cases res with
    | none =>
      simp only [hardWhile, hm]
      exact hr
    | some c =>
      simp only [hardWhile, hm]
      have hcm := sep_check_mistake hr.1 c
      by_cases hmist : (check_mistake_st σ' c curRef).1 = true
      · simp only [hmist, if_true]
        have hi := ih (check_mistake_st σ' c curRef).2 rng' hcm.1
        exact ⟨hi.1, (hi.2.trans hcm.2).trans hr.2⟩
      · simp only [hmist, if_false, Bool.false_eq_true]
        exact ⟨hcm.1, hcm.2.trans hr.2⟩

theorem sep_bot_move {σ : BotSt} {curRef : Nat} (h : SepInv σ curRef)
    (diff : String) (rng : List Nat) :
    SepInv (bot_move_st diff σ curRef rng).2 curRef ∧
    (bot_move_st diff σ curRef rng).2.heap.getD curRef [] = σ.heap.getD curRef [] := by
  unfold bot_move_st
  by_cases he : (diff == "easy") = true
  · simp only [he, if_true]
    exact sep_random_move h rng
  · simp only [he, if_false, Bool.false_eq_true]
    by_cases hm : (diff == "moderate") = true
    · simp only [hm, if_true]
      have h4 := sep_place_4th h
      rcases hp : place_4th_coin_st σ curRef with ⟨res, σ'⟩
      rw [hp] at h4
      cases res with
      | some c => exact h4
      | none =>
        simp only
        have hr := sep_random_move h4.1 rng
        exact ⟨hr.1, hr.2.trans h4.2⟩
    · simp only [hm, if_false, Bool.false_eq_true]
      by_cases hh : (diff == "hard") = true
      · simp only [hh, if_true]
        have h4 := sep_place_4th h
        rcases hp : place_4th_coin_st σ curRef with ⟨res, σ'⟩
        rw [hp] at h4
        cases res with
        | some c => exact h4
        | none =>
          simp only
          have ha := sep_availLoop curRef (List.range 7) σ' 0 h4.1
          by_cases hav : 0 < (availLoop curRef σ' (List.range 7) 0).1
          · simp only [hav, if_true]
            have hw := sep_hardWhile curRef (rng.length + 1)
              (availLoop curRef σ' (List.range 7) 0).2 rng ha.1
            exact ⟨hw.1, (hw.2.trans ha.2).trans h4.2⟩
          · simp only [hav, if_false]
            have hr := sep_random_move ha.1 rng
            exact ⟨hr.1, (hr.2.trans ha.2).trans h4.2⟩
      · simp only [hh, if_false, Bool.false_eq_true]
        exact ⟨h, trivial⟩

/-- Claim C3: for every difficulty string (in particular easy, moderate and
hard), every board and every random stream, `Bot.bot_move` leaves the array
that was passed to it unchanged: after the call the caller's object (address
0) still holds exactly the original board, all simulated placements having
gone to the bot's own copies. -/
theorem C3_bot_move_preserves_board (diff : String) (B : Board) (rng : List Nat) :
    (bot_move_st diff (initSt B) 0 rng).2.heap.getD 0 [] = B := by
  have hsep : SepInv (initSt B) 0 := by
    refine ⟨?_, ?_, ?_⟩ <;> simp [initSt, SepInv]
  have h := sep_bot_move hsep diff rng
  rw [h.2]
  rfl

/- ### Simulation: place_4th_coin computes the pure scan (claim C1) -/

theorem curBoard_place_st {σ : BotSt} {curRef : Nat} (h : SepInv σ curRef) (c p : Nat) :
    curBoard (place_st σ c p).1 = (placeN (curBoard σ) c p).1 := by
  simp only [place_st, curBoard]
  exact getD_set_self _ _ _ h.2.1

theorem place_st_ok (σ : BotSt) (c p : Nat) :
    (place_st σ c p).2 = (placeN (curBoard σ) c p).2 := rfl

theorem curBoard_set_cur (σ : BotSt) (src : Nat) :
    curBoard (set_cur σ src) = σ.heap.getD src [] := by
  simp only [set_cur, curBoard]
  exact getD_concat_length _ _ _

theorem placeN_fail {b : Board} {j p : Nat} (h : (placeN b j p).2 = false) :
    (placeN b j p).1 = b := by
  unfold placeN at *
  by_cases htop : getCell b 0 j = 0
  · rw [if_pos htop] at h
    cases h
  · rw [if_neg htop]

theorem p4loop_sim (curRef p : Nat) (B : Board) (cols : List Nat) :
    ∀ σ : BotSt, SepInv σ curRef → curBoard σ = B → σ.heap.getD curRef [] = B →
      (p4loop curRef p σ cols).1 = pureScan B p cols ∧
      ((p4loop curRef p σ cols).1 = none →
        SepInv (p4loop curRef p σ cols).2 curRef ∧
        curBoard (p4loop curRef p σ cols).2 = B ∧
        (p4loop curRef p σ cols).2.heap.getD curRef [] = B) := by
  induction cols with
  | nil => exact fun σ h hc hr => ⟨rfl, fun _ => ⟨h, hc, hr⟩⟩
  | cons c cs ih =>
    intro σ h hc hr
    have hsp := sep_place_st h c p
    have hok : (place_st σ c p).2 = (placeN B c p).2 := by rw [place_st_ok, hc]
    have hwin : check_win (curBoard (place_st σ c p).1) p = check_win (placeN B c p).1 p := by
      rw [curBoard_place_st h, hc]
    by_cases hP : (placeN B c p).2 = true
    · by_cases hW : (check_win (placeN B c p).1 p == some p) = true
      · constructor
        · simp only [p4loop, hok, hP, hwin, hW, if_true]
          simp [pureScan, p4cond, hP, hW]
        · intro hnone
          simp only [p4loop, hok, hP, hwin, hW, if_true] at hnone
          cases hnone
      · -- successful placement, no win: the container is reset to curr_board
        have hgd : (place_st σ c p).1.heap.getD curRef [] = B := hsp.2.trans hr
        have hsc := sep_set_cur hsp.1 curRef
        have hcur : curBoard (set_cur (place_st σ c p).1 curRef) = B := by
          rw [curBoard_set_cur]
          exact hgd
        have hgd2 : (set_cur (place_st σ c p).1 curRef).heap.getD curRef [] = B :=
          hsc.2.trans hgd
        have hi := ih (set_cur (place_st σ c p).1 curRef) hsc.1 hcur hgd2
        constructor
        · simp only [p4loop, hok, hP, hwin, hW, if_true, if_false, Bool.false_eq_true]
          rw [hi.1]
          simp [pureScan, p4cond, hP, hW]
        · intro hnone
          simp only [p4loop, hok, hP, hwin, hW, if_true, if_false, Bool.false_eq_true] at *
          exact hi.2 hnone
    · -- failed placement: the container is untouched
      have hPf : (placeN B c p).2 = false := by
        cases hcc : (placeN B c p).2
        · rfl
        · exact absurd hcc hP
      have hfail : curBoard (place_st σ c p).1 = B := by
        rw [curBoard_place_st h, hc]
        exact placeN_fail hPf
      have hgd : (place_st σ c p).1.heap.getD curRef [] = B := hsp.2.trans hr
      have hi := ih (place_st σ c p).1 hsp.1 hfail hgd
      constructor
      · simp only [p4loop, hok, hPf, if_false, Bool.false_eq_true]
        rw [hi.1]
        simp [pureScan, p4cond, hPf]
      · intro hnone
        simp only [p4loop, hok, hPf, if_false, Bool.false_eq_true] at *
        exact hi.2 hnone

theorem place_4th_scan2 (B : Board) (k : Nat)
    (hk : pureScan B 2 (List.range 7) = some k) : run_place_4th B = some k := by
  unfold run_place_4th place_4th_coin_st
  have hsep : SepInv (initSt B) 0 := by
    refine ⟨?_, ?_, ?_⟩ <;> simp [initSt]
  have h1 := sep_set_cur hsep 0
  have hcur : curBoard (set_cur (initSt B) 0) = B := by
    rw [curBoard_set_cur]
    rfl
  have hgd : (set_cur (initSt B) 0).heap.getD 0 [] = B := h1.2.trans rfl
  have hs := p4loop_sim 0 2 B (List.range 7) (set_cur (initSt B) 0) h1.1 hcur hgd
  rcases hm : p4loop 0 2 (set_cur (initSt B) 0) (List.range 7) with ⟨res, σ'⟩
  rw [hm] at hs
  have hres : res = some k := by
    have := hs.1
    simp only at this
    rw [this, hk]
  subst hres
  simp [hm]

theorem pureScan_range7_least (B : Board) (p k : Nat) (hk : k < 7)
    (hsat : p4cond B p k = true) (hmin : ∀ i, i < k → p4cond B p i = false) :
    pureScan B p (List.range 7) = some k := by
  have h7 : (List.range 7) = [0, 1, 2, 3, 4, 5, 6] := rfl
  rw [h7]
  interval_cases k
  · simp [pureScan, hsat]
  · simp [pureScan, hsat, hmin 0 (by omega)]
  · simp [pureScan, hsat, hmin 0 (by omega), hmin 1 (by omega)]
  · simp [pureScan, hsat, hmin 0 (by omega), hmin 1 (by omega), hmin 2 (by omega)]
  · simp [pureScan, hsat, hmin 0 (by omega), hmin 1 (by omega), hmin 2 (by omega),
      hmin 3 (by omega)]
  · simp [pureScan, hsat, hmin 0 (by omega), hmin 1 (by omega), hmin 2 (by omega),
      hmin 3 (by omega), hmin 4 (by omega)]
  · simp [pureScan, hsat, hmin 0 (by omega), hmin 1 (by omega), hmin 2 (by omega),
      hmin 3 (by omega), hmin 4 (by omega), hmin 5 (by omega)]

theorem p4cond_iff (B : Board) (p c : Nat) (hp : p ≠ 3) :
    p4cond B p c = true ↔ ((placeN B c p).2 = true ∧ HasRun (placeN B c p).1 p) := by
  unfold p4cond
  rw [Bool.and_eq_true, check_win_beq_self _ hp, hasFour_iff]

/-- Claim C1: whenever some playable column completes a four-in-a-row for the
acting player (player 2, the bot), `place_4th_coin` returns the smallest such
column — the player-2 scan over columns 0..6 runs before (and its result
pre-empts) any player-1 blocking scan, and within it the first winning column
in ascending order is returned. -/
theorem C1_place_4th_own_win_first (B : Board) (k : Nat) (hk : k < 7)
    (hsat : (placeN B k 2).2 = true ∧ HasRun (placeN B k 2).1 2)
    (hmin : ∀ i, i < k → ¬((placeN B i 2).2 = true ∧ HasRun (placeN B i 2).1 2)) :
    run_place_4th B = some k := by
  apply place_4th_scan2
  apply pureScan_range7_least B 2 k hk
  · exact (p4cond_iff B 2 k (by omega)).mpr hsat
  · intro i hi
    cases hcond : p4cond B 2 i
    · rfl
    · exact absurd ((p4cond_iff B 2 i (by omega)).mp hcond) (hmin i hi)

/-- Witness for C1: on `vert2Board` the bot completes its own vertical run in
column 0. -/
theorem C1_witness : run_place_4th vert2Board = some 0 :=
  C1_place_4th_own_win_first vert2Board 0 (by omega) (by decide)
    (fun i hi => absurd hi (by omega))
